import Mathlib

/-!
Verification of the oct2py core (type marshalling, Struct container,
temp-file sweep, output-count inference, session protocol) against its
natural-language specification.

The `Struct` class in `src/oct2py/utils.py` decides whether to auto-create a
missing key by inspecting the bytecode of the calling frames: `_is_allowed`
reads the byte at offset `f_lasti + 3` of a frame's code object and checks
membership in `[STORE_ATTR, LOAD_CONST, STOP_CODE]`.  The embedding below
makes those context bytes explicit parameters: every operation that the
Python code decides by frame introspection takes the instruction byte(s) the
source would have read.  All opcode constants are the CPython 2.7 `dis.opmap`
values (the `f_lasti + 3` arithmetic is only meaningful for the pre-wordcode
bytecode layout that the source targets, where an instruction with an
argument occupies three bytes).
-/

namespace Oct2py

/-! ### CPython opcode constants (dis.opmap, CPython 2.7) -/

def opSTOP_CODE : Nat := 0
def opPOP_TOP : Nat := 1
def opDUP_TOP : Nat := 4
def opBINARY_SUBSCR : Nat := 25
def opSTORE_SUBSCR : Nat := 60
def opRETURN_VALUE : Nat := 83
def opPOP_BLOCK : Nat := 87
def opSTORE_NAME : Nat := 90
def opUNPACK_SEQUENCE : Nat := 92
def opSTORE_ATTR : Nat := 95
def opLOAD_CONST : Nat := 100
def opLOAD_ATTR : Nat := 106
def opJUMP_FORWARD : Nat := 110

/-! ### The Struct container (`oct2py/utils.py`, class `Struct`)

Python values stored in a `Struct`, as far as the claims need them:
strings, integers and nested `Struct`s.  A `Struct`'s content is modelled as
an ordered association list of string keys; this is a faithful model of the
*content* of a Python `dict` (membership and per-key values).  Iteration
order of the underlying CPython 2.7 hash table is modelled separately below
(`dictIterKeys`).
-/

mutual
inductive PVal where
  | vstr (s : String) : PVal
  | vint (n : Int) : PVal
  | vstruct (fs : PFields) : PVal

inductive PFields where
  | fnil : PFields
  | fcons (k : String) (v : PVal) (fs : PFields) : PFields
end

/-- One error type for the Python exceptions the Struct code can raise:
`KeyError` (from `dict.__getitem__`) and `AttributeError`
(raised by `Struct.__getattr__`). -/
inductive PyErr where
  | keyErr (k : String) : PyErr
  | attrErr (k : String) : PyErr
deriving DecidableEq

/-- Whether a key is present (`attr in self.keys()`). -/
def PFields.hasKey : PFields → String → Bool
  | .fnil, _ => false
  | .fcons k _ fs, a => k == a || fs.hasKey a

/-- `dict.__getitem__`: return the value stored at the key, or `KeyError`. -/
def PFields.dictGetitem : PFields → String → Except PyErr PVal
  | .fnil, a => .error (.keyErr a)
  | .fcons k v fs, a => if k == a then .ok v else fs.dictGetitem a

/-- `dict.__setitem__`: overwrite an existing key in place, otherwise add the
binding at the end.  (Only the content matters for the Struct claims; hash
iteration order is modelled separately.) -/
def PFields.dictSetitem : PFields → String → PVal → PFields
  | .fnil, a, v => .fcons a v .fnil
  | .fcons k w fs, a, v =>
    if k == a then .fcons k v fs else .fcons k w (fs.dictSetitem a v)

/-- `Struct._is_allowed`: the allowed op codes are
`[dis.opmap['STORE_ATTR'], dis.opmap['LOAD_CONST'], dis.opmap['STOP_CODE']]`;
the argument is the byte the source reads at `f_lasti + 3` of the frame
under inspection. -/
def is_allowed (instruction : Nat) : Bool :=
  instruction == opSTORE_ATTR || instruction == opLOAD_CONST ||
    instruction == opSTOP_CODE

/-- The caller context that `Struct.__getitem__` inspects:
`outer` is the byte at `f_lasti + 3` of `frame.f_back.f_back`
(`none` when that frame is `None`, e.g. at module top level for a direct
subscript), `inner` is the byte at `f_lasti + 3` of `frame.f_back`. -/
structure CallerCtx where
  outer : Option Nat
  inner : Nat
deriving DecidableEq

/-- `attr.startswith('_')`. -/
def startsWithUnderscore (s : String) : Bool :=
  match s.data with
  | [] => false
  | c :: _ => c == '_'

/-- `Struct.__getitem__`.  Returns the Python result (value or exception)
together with the possibly-mutated field list.  Mirrors the source:
if the key is present or starts with an underscore, fall through to
`dict.__getitem__`; otherwise create an empty Struct at the key when
`frame.f_back.f_back` exists and `_is_allowed` accepts it, or (elif) when
`_is_allowed` accepts `frame.f_back`; finally `dict.__getitem__`. -/
def Struct.getitem (fs : PFields) (attr : String) (ctx : CallerCtx) :
    Except PyErr PVal × PFields :=
  if fs.hasKey attr || startsWithUnderscore attr then
    (fs.dictGetitem attr, fs)
  else
    let fs1 :=
      match ctx.outer with
      | some b2 =>
        if is_allowed b2 then fs.dictSetitem attr (.vstruct .fnil)
        else if is_allowed ctx.inner then fs.dictSetitem attr (.vstruct .fnil)
        else fs
      | none =>
        if is_allowed ctx.inner then fs.dictSetitem attr (.vstruct .fnil)
        else fs
    (fs1.dictGetitem attr, fs1)

/-- The byte at `f_lasti + 3` of the `__getattr__` frame while it executes
`self[attr]` (its `f_lasti` sits on the `BINARY_SUBSCR` of
`return self[attr]`).  In the compiled method body the `return` inside the
`try` block is followed by the block epilogue (`POP_BLOCK` / `JUMP_FORWARD` /
the `except` handler's `DUP_TOP`) — in every layout a byte that is not in
`_is_allowed`'s list, which is the only property the proofs use. -/
def getattrFrameByte : Nat := opJUMP_FORWARD

/-- `Struct.__getattr__`: delegates to `self[attr]` (so `__getitem__` sees
the `__getattr__` frame as `f_back` and the user frame as `f_back.f_back`),
turning a `KeyError` into an `AttributeError`.  `userByte` is the byte at
`f_lasti + 3` of the user frame (the opcode following the `LOAD_ATTR` that
triggered the lookup). -/
def Struct.getattr (fs : PFields) (attr : String) (userByte : Nat) :
    Except PyErr PVal × PFields :=
  match Struct.getitem fs attr ⟨some userByte, getattrFrameByte⟩ with
  | (.error (.keyErr _), fs1) => (.error (.attrErr attr), fs1)
  | r => r

/-- `Struct.__setattr__ = dict.__setitem__`. -/
def Struct.setattr (fs : PFields) (attr : String) (v : PVal) : PFields :=
  fs.dictSetitem attr v

/-! #### The chained assignment `s.a.b.c = 5`

CPython compiles the statement to
`LOAD_CONST 5; LOAD s; LOAD_ATTR a; LOAD_ATTR b; STORE_ATTR c`.
The read of `a` therefore runs with the user frame's `f_lasti` on
`LOAD_ATTR a`, so the byte at `f_lasti + 3` is the next opcode,
`LOAD_ATTR` (for `b`); the read of `b` runs with the byte `STORE_ATTR`
(for `c`).  Mutation of the nested structs is modelled by writing the
updated child back along the access path, which is what sharing of the
mutable `dict` references achieves in Python. -/
def assignAttrChain (s : PFields) : Except PyErr PFields :=
  match Struct.getattr s "a" opLOAD_ATTR with
  | (.error e, _) => .error e
  | (.ok va, s1) =>
    match va with
    | .vstruct fa =>
      match Struct.getattr fa "b" opSTORE_ATTR with
      | (.error e, _) => .error e
      | (.ok vb, fa1) =>
        match vb with
        | .vstruct fb =>
          let fb1 := Struct.setattr fb "c" (.vint 5)
          .ok (s1.dictSetitem "a" (.vstruct (fa1.dictSetitem "b" (.vstruct fb1))))
        | _ => .error (.attrErr "c")
    | _ => .error (.attrErr "b")

/-- The two-level chained assignment `s.b.c = 5`
(`LOAD_CONST 5; LOAD s; LOAD_ATTR b; STORE_ATTR c`): the single
intermediate read of `b` runs with user-frame byte `STORE_ATTR`. -/
def assignAttrChain2 (s : PFields) : Except PyErr PFields :=
  match Struct.getattr s "b" opSTORE_ATTR with
  | (.error e, _) => .error e
  | (.ok vb, s1) =>
    match vb with
    | .vstruct fb =>
      .ok (s1.dictSetitem "b" (.vstruct (Struct.setattr fb "c" (.vint 5))))
    | _ => .error (.attrErr "c")

/-- The item-style chained assignment `s['a']['b']['c'] = 5` executed at
module top level: each `BINARY_SUBSCR` invokes `__getitem__` with
`frame.f_back` the module frame (`f_back.f_back` is `None`), and the byte at
`f_lasti + 3` there is the high argument byte of the following
`LOAD_CONST` / `STORE_SUBSCR`-preparing instruction, i.e. `0`
(= `STOP_CODE`, which is in the allowed list). -/
def assignItemChain (s : PFields) : Except PyErr PFields :=
  match Struct.getitem s "a" ⟨none, opSTOP_CODE⟩ with
  | (.error e, _) => .error e
  | (.ok va, s1) =>
    match va with
    | .vstruct fa =>
      match Struct.getitem fa "b" ⟨none, opSTOP_CODE⟩ with
      | (.error e, _) => .error e
      | (.ok vb, fa1) =>
        match vb with
        | .vstruct fb =>
          let fb1 := fb.dictSetitem "c" (.vint 5)
          .ok (s1.dictSetitem "a" (.vstruct (fa1.dictSetitem "b" (.vstruct fb1))))
        | _ => .error (.keyErr "c")
    | _ => .error (.keyErr "b")

/-- The read `s['a']['b']['c']` at module top level: the same context bytes
as above; all keys are present after a successful assignment, so the
creation heuristic is not consulted. -/
def readItemChain (s : PFields) : Except PyErr PVal :=
  match Struct.getitem s "a" ⟨none, opSTOP_CODE⟩ with
  | (.error e, _) => .error e
  | (.ok va, _) =>
    match va with
    | .vstruct fa =>
      match Struct.getitem fa "b" ⟨none, opSTOP_CODE⟩ with
      | (.error e, _) => .error e
      | (.ok vb, _) =>
        match vb with
        | .vstruct fb => (Struct.getitem fb "c" ⟨none, opSTOP_CODE⟩).1
        | _ => .error (.keyErr "c")
    | _ => .error (.keyErr "b")

/-- A missing key reaches `dict.__getitem__` only to raise `KeyError`. -/
theorem PFields.dictGetitem_of_hasKey_false :
    ∀ (fs : PFields) (a : String), fs.hasKey a = false →
      fs.dictGetitem a = .error (.keyErr a)
  | .fnil, _, _ => rfl
  | .fcons k v fs, a, h => by
    simp only [PFields.hasKey, Bool.or_eq_false_iff] at h
    simp only [PFields.dictGetitem, h.1, Bool.false_eq_true, if_false]
    exact PFields.dictGetitem_of_hasKey_false fs a h.2

/-- C2 counterexample.  On a fresh `Struct`, the chained attribute assignment
`s.a.b.c = 5` does not auto-create the intermediates: the read of `a` runs
with the caller's next instruction byte `LOAD_ATTR` (for `b`), which is not
in `_is_allowed`'s list, and the `__getattr__`-frame check also fails, so the
statement raises `AttributeError` for `a` before anything is assigned. -/
theorem struct_attr_chain_three_raises :
    assignAttrChain .fnil = .error (.attrErr "a") := rfl

/-- C2 amended.  The auto-vivification does work when every intermediate read
happens in an allowed context: the item-style chain `s['a']['b']['c'] = 5`
at module top level (context byte `0` = `STOP_CODE`, the high argument byte
of the following `LOAD_CONST`) creates both intermediate Structs and the
subsequent read `s['a']['b']['c']` returns `5`; likewise the two-level
attribute chain `s.b.c = 5` (context byte `STORE_ATTR`) creates `s.b`. -/
theorem struct_item_chain_creates_and_reads_back :
    assignItemChain .fnil =
      .ok (.fcons "a" (.vstruct (.fcons "b" (.vstruct
        (.fcons "c" (.vint 5) .fnil)) .fnil)) .fnil) ∧
    readItemChain (.fcons "a" (.vstruct (.fcons "b" (.vstruct
        (.fcons "c" (.vint 5) .fnil)) .fnil)) .fnil) = .ok (.vint 5) ∧
    assignAttrChain2 .fnil =
      .ok (.fcons "b" (.vstruct (.fcons "c" (.vint 5) .fnil)) .fnil) :=
  ⟨rfl, rfl, rfl⟩

/-- C3 counterexample.  A terminal read can auto-create: in `s.q == 5` the
byte after the `LOAD_ATTR q` is the `LOAD_CONST` opcode, which is in
`_is_allowed`'s list, so reading the never-assigned key `q` in this plain
lookup (not followed by any nested assignment) returns a fresh empty Struct
and stores it, instead of raising a missing-attribute error. -/
theorem struct_terminal_read_can_autocreate :
    Struct.getattr .fnil "q" opLOAD_CONST =
      (.ok (.vstruct .fnil), .fcons "q" (.vstruct .fnil) .fnil) := rfl

/-- C3 amended.  Reading a missing key through attribute access raises
`AttributeError` (and leaves the Struct unchanged) whenever the caller's
next instruction byte is outside `_is_allowed`'s list
`{STORE_ATTR, LOAD_CONST, STOP_CODE}` — which covers the plain terminal
reads `s.q` as a statement (`POP_TOP`) and `x = s.q` (`STORE_NAME`/
`STORE_FAST`); when the byte is in the list the key is auto-created
instead. -/
theorem struct_missing_attr_raises :
    ∀ (fs : PFields) (attr : String) (userByte : Nat),
      fs.hasKey attr = false → is_allowed userByte = false →
      Struct.getattr fs attr userByte = (.error (.attrErr attr), fs) := by
  intro fs attr userByte hk hb
  unfold Struct.getattr Struct.getitem
  cases hu : startsWithUnderscore attr with
  | true =>
    simp only [hk, hu, Bool.false_or, if_true,
      PFields.dictGetitem_of_hasKey_false fs attr hk]
  | false =>
    simp only [hk, hu, Bool.or_self, Bool.false_eq_true, if_false, hb,
      show is_allowed getattrFrameByte = false from rfl,
      PFields.dictGetitem_of_hasKey_false fs attr hk]

/-- C3 amended, witness: the statement `s.q` on a fresh Struct (caller's
next instruction `POP_TOP`) raises `AttributeError('q')`. -/
theorem struct_missing_attr_raises_witness :
    PFields.fnil.hasKey "q" = false ∧ is_allowed opPOP_TOP = false ∧
    Struct.getattr .fnil "q" opPOP_TOP = (.error (.attrErr "q"), .fnil) :=
  ⟨rfl, rfl, struct_missing_attr_raises .fnil "q" opPOP_TOP rfl rfl⟩

/-- C8.  A missing key that begins with an underscore is never auto-created:
`__getitem__` short-circuits to `dict.__getitem__`, which raises `KeyError`,
and the container's contents are unchanged — for every caller context. -/
theorem struct_underscore_key_never_created :
    ∀ (fs : PFields) (attr : String) (ctx : CallerCtx),
      startsWithUnderscore attr = true → fs.hasKey attr = false →
      Struct.getitem fs attr ctx = (.error (.keyErr attr), fs) := by
  intro fs attr ctx hu hk
  unfold Struct.getitem
  simp only [hu, hk, Bool.false_or, if_true,
    PFields.dictGetitem_of_hasKey_false fs attr hk]

/-- C8 witness: reading the missing key `"_q"` on a one-entry Struct raises
`KeyError` and leaves the entry intact, even in a context whose instruction
byte (`STORE_ATTR`) would otherwise allow creation. -/
theorem struct_underscore_key_never_created_witness :
    startsWithUnderscore "_q" = true ∧
    (PFields.fcons "x" (.vint 1) .fnil).hasKey "_q" = false ∧
    Struct.getitem (.fcons "x" (.vint 1) .fnil) "_q"
        ⟨some opSTORE_ATTR, opSTORE_ATTR⟩ =
      (.error (.keyErr "_q"), .fcons "x" (.vint 1) .fnil) :=
  ⟨rfl, rfl, struct_underscore_key_never_created
    (.fcons "x" (.vint 1) .fnil) "_q" ⟨some opSTORE_ATTR, opSTORE_ATTR⟩ rfl rfl⟩

/-! ### Struct equality and iteration order

`Struct` subclasses `dict`, so `==` is Python's dict equality (same length,
same keys, recursively equal values) and `iter`/`keys()` is the iteration
order of the underlying CPython hash table, not the insertion order.
-/

/-- First value stored under a key, if any (`d[k]` when `k in d`). -/
def PFields.findVal : PFields → String → Option PVal
  | .fnil, _ => none
  | .fcons k v fs, a => if k == a then some v else fs.findVal a

/-- Number of entries (`len(d)`), assuming distinct keys. -/
def PFields.entryCount : PFields → Nat
  | .fnil => 0
  | .fcons _ _ fs => fs.entryCount + 1

mutual
/-- Python `dict.__eq__` on Struct values: strings and integers compare by
value; Structs compare by length and key-wise recursively equal values
(deep, insertion-order-insensitive). -/
def pvalEq : PVal → PVal → Bool
  | .vstr a, .vstr b => a == b
  | .vint a, .vint b => a == b
  | .vstruct fs, .vstruct gs =>
    fs.entryCount == gs.entryCount && pfieldsIncl fs gs
  | _, _ => false

/-- Every entry of the first field list has a matching, recursively equal
entry in the second. -/
def pfieldsIncl : PFields → PFields → Bool
  | .fnil, _ => true
  | .fcons k v fs, gs =>
    (match gs.findVal k with
     | some w => pvalEq v w
     | none => false) && pfieldsIncl fs gs
end

/-- 2^64: hashes in a 64-bit CPython build live modulo this. -/
def pow64 : Nat := 18446744073709551616

/-- Modelled from the runtime the source relies on: the CPython 2.7 string
hash (`x = ord(s[0]) << 7`; then `x = (1000003*x) ^ ord(c)` over all
characters; `x ^= len(s)`; `-1` is replaced by `-2`), computed on the
64-bit two's-complement representation, for the byte strings used as Struct
keys (ASCII, hash randomization off — the CPython 2.7 default). -/
def pyhash27 (s : String) : Nat :=
  match s.data with
  | [] => 0
  | c :: _ =>
    let x0 := (c.toNat <<< 7) % pow64
    let x1 := s.data.foldl (fun x ch => ((1000003 * x) % pow64) ^^^ ch.toNat) x0
    let x2 := x1 ^^^ s.data.length
    if x2 == pow64 - 1 then pow64 - 2 else x2

/-- Slot of a key in the initial 8-entry CPython dict table:
`hash & (size - 1)`. -/
def slotOf (s : String) : Nat := pyhash27 s % 8

/-- Modelled from the runtime the source relies on: iteration order of a
CPython 2.7 dict holding at most 5 string keys whose hashes land in distinct
slots of the initial 8-entry table — ascending slot order, independent of
insertion order.  The class's own docstring exhibits this: after `a.b =
'spam'` then `a.c["d"] = 'eggs'`, `print(a)` shows `c` before `b`
(`utils.py` lines 95-98), which this model reproduces. -/
def dictIterKeys (keys : List String) : List String :=
  ((List.range 8).map (fun i => keys.filter (fun k => slotOf k == i))).flatten

/-- C6 counterexample.  Iterating a Struct's keys does not follow insertion
order: inserting `b` then `c` (as in the class docstring) iterates as
`c`, `b`, because `hash('b') & 7 = 3` while `hash('c') & 7 = 2`. -/
theorem struct_iter_not_insertion_order :
    dictIterKeys ["b", "c"] = ["c", "b"] ∧
    (["c", "b"] : List String) ≠ ["b", "c"] := by
  exact ⟨by decide, by decide⟩

/-- C6 amended.  Struct supports deep (recursively structural) equality,
which is insensitive to insertion order — the docstring example
`{'b': 'spam', 'c': {'d': 'eggs'}}` equals its reordering — while key
iteration follows the hash-table slot order, not insertion order (the
docstring's own `print` output `{'c': ..., 'b': ...}`). -/
theorem struct_deep_eq_and_hash_order :
    pvalEq
      (.vstruct (.fcons "b" (.vstr "spam")
        (.fcons "c" (.vstruct (.fcons "d" (.vstr "eggs") .fnil)) .fnil)))
      (.vstruct (.fcons "c" (.vstruct (.fcons "d" (.vstr "eggs") .fnil))
        (.fcons "b" (.vstr "spam") .fnil))) = true ∧
    dictIterKeys ["b", "c"] = ["c", "b"] := by
  exact ⟨by decide, by decide⟩

/-! ### The shutdown sweep (`oct2py/utils.py`, `_remove_temp_files`)

The sweep scans the temp directory for files matching the glob pattern
`tmp*.mat` and calls `os.remove` on each, swallowing `OSError`.  The temp
directory is modelled as a list of files (name, plus whether an attempt to
delete it succeeds); a directory never holds two files of the same name.
-/

structure TmpFile where
  name : String
  removable : Bool
deriving DecidableEq

/-- Is the first character list a prefix of the second. -/
def charsIsPre : List Char → List Char → Bool
  | [], _ => true
  | _ :: _, [] => false
  | p :: ps, c :: cs => p == c && charsIsPre ps cs

/-- The glob pattern `tmp*.mat`: the name is `"tmp" ++ mid ++ ".mat"` for
some (possibly empty) `mid`, i.e. it starts with `tmp`, ends with `.mat`,
and is at least 7 characters long. -/
def matchesTmpMat (n : String) : Bool :=
  charsIsPre "tmp".data n.data &&
    charsIsPre ".mat".data.reverse n.data.reverse &&
    decide (7 ≤ n.data.length)

/-- `glob.glob(os.path.join(dirname, 'tmp*.mat'))`: the names of the files
matching the pattern. -/
def globTmpMat (fs : List TmpFile) : List String :=
  (fs.filter (fun f => matchesTmpMat f.name)).map (fun f => f.name)

/-- `os.remove(n)`: delete the file named `n`, or raise `OSError` when there
is no such file or the deletion fails. -/
def osRemove : List TmpFile → String → Except Unit (List TmpFile)
  | [], _ => .error ()
  | f :: fs, n =>
    if f.name == n then
      if f.removable then .ok fs else .error ()
    else
      match osRemove fs n with
      | .ok fs1 => .ok (f :: fs1)
      | .error e => .error e

/-- `_remove_temp_files`: `for fname in glob(...): try: os.remove(fname)
except OSError: pass`.  Total by construction — an individual failure leaves
the directory as it was and the loop continues. -/
def remove_temp_files (fs : List TmpFile) : List TmpFile :=
  (globTmpMat fs).foldl
    (fun acc n =>
      match osRemove acc n with
      | .ok acc1 => acc1
      | .error _ => acc) fs

/-- Files whose name differs from `n` are untouched by the filter used to
characterise one removal step. -/
theorem filter_eq_self_of_name_ne (fs : List TmpFile) (n : String)
    (h : ∀ g ∈ fs, (g.name == n) = false) :
    fs.filter (fun g => !(g.name == n && g.removable)) = fs := by
  refine List.filter_eq_self.mpr ?_
  intro g hg
  simp [h g hg]

/-- One iteration of the sweep loop behaves like removing every removable
file named `n` (with unique names: the one such file, if any). -/
theorem sweep_step_eq_filter :
    ∀ (fs : List TmpFile) (n : String), (fs.map TmpFile.name).Nodup →
      (match osRemove fs n with
       | .ok fs1 => fs1
       | .error _ => fs) =
        fs.filter (fun g => !(g.name == n && g.removable)) := by
  intro fs n hnd
  induction fs with
  | nil => rfl
  | cons f fs ih =>
    simp only [List.map_cons, List.nodup_cons] at hnd
    rcases hnd with ⟨hf, hnd⟩
    by_cases hn : f.name = n
    · have hnames : ∀ g ∈ fs, (g.name == n) = false := by
        intro g hg
        have : g.name ≠ f.name := by
          intro hgf
          exact hf (hgf ▸ List.mem_map_of_mem TmpFile.name hg)
        simp [hn ▸ this]
      cases hrem : f.removable with
      | true =>
        simp only [osRemove, hn, beq_self_eq_true, if_true, hrem,
          List.filter_cons, Bool.and_true, Bool.not_true]
        exact (filter_eq_self_of_name_ne fs n hnames).symm
      | false =>
        simp only [osRemove, hn, beq_self_eq_true, if_true, hrem,
          List.filter_cons, Bool.and_false, Bool.not_false]
        exact congrArg (f :: ·) (filter_eq_self_of_name_ne fs n hnames).symm
    · have hfb : (f.name == n) = false := by simp [hn]
      simp only [osRemove, hfb, Bool.false_eq_true, if_false,
        List.filter_cons, Bool.false_and, Bool.not_false]
      specialize ih hnd
      cases hrec : osRemove fs n with
      | ok fs1 => simpa [hrec] using congrArg (f :: ·) ih
      | error e => simpa [hrec] using congrArg (f :: ·) ih

/-- Folding the sweep loop over a list of names filters out exactly the
removable files bearing one of those names. -/
theorem sweep_fold_eq_filter :
    ∀ (ns : List String) (fs : List TmpFile), (fs.map TmpFile.name).Nodup →
      ns.foldl
        (fun acc n =>
          match osRemove acc n with
          | .ok acc1 => acc1
          | .error _ => acc) fs =
      fs.filter (fun g => !(ns.contains g.name && g.removable)) := by
  intro ns
  induction ns with
  | nil =>
    intro fs _
    simp
  | cons n ns ih =>
    intro fs hnd
    have hstep := sweep_step_eq_filter fs n hnd
    have hnd1 : ((fs.filter
        (fun g => !(g.name == n && g.removable))).map TmpFile.name).Nodup :=
      List.Nodup.sublist ((List.filter_sublist fs).map TmpFile.name) hnd
    calc (n :: ns).foldl
          (fun acc m =>
            match osRemove acc m with
            | .ok acc1 => acc1
            | .error _ => acc) fs
        = ns.foldl
            (fun acc m =>
              match osRemove acc m with
              | .ok acc1 => acc1
              | .error _ => acc)
            (fs.filter (fun g => !(g.name == n && g.removable))) := by
          rw [List.foldl_cons, hstep]
      _ = (fs.filter (fun g => !(g.name == n && g.removable))).filter
            (fun g => !(ns.contains g.name && g.removable)) := ih _ hnd1
      _ = fs.filter (fun g => !((n :: ns).contains g.name && g.removable)) := by
          rw [List.filter_filter]
          refine List.filter_congr ?_
          intro g _
          rw [List.contains_cons]
          cases hgn : g.name == n <;> cases hc : ns.contains g.name <;>
            cases hr : g.removable <;> rfl

/-- C9.  The shutdown sweep deletes exactly the deletable files whose names
match `tmp*.mat`; every non-matching file (and every matching file whose
deletion fails, the failure being swallowed) is left in place, and the sweep
itself is a total function — no error propagates out of the loop. -/
theorem remove_temp_files_spec :
    ∀ (fs : List TmpFile), (fs.map TmpFile.name).Nodup →
      remove_temp_files fs =
        fs.filter (fun f => !(matchesTmpMat f.name && f.removable)) := by
  intro fs hnd
  rw [remove_temp_files, sweep_fold_eq_filter (globTmpMat fs) fs hnd]
  refine List.filter_congr ?_
  intro f hf
  have hc : (globTmpMat fs).contains f.name = matchesTmpMat f.name := by
    cases hm : matchesTmpMat f.name with
    | true =>
      have : f.name ∈ globTmpMat fs :=
        List.mem_map_of_mem TmpFile.name (List.mem_filter.mpr ⟨hf, hm⟩)
      simpa using this
    | false =>
      rw [Bool.eq_false_iff]
      intro hcon
      have hcon2 : f.name ∈ globTmpMat fs := by simpa using hcon
      rcases List.mem_map.mp hcon2 with ⟨g, hg, hgname⟩
      have := (List.mem_filter.mp hg).2
      rw [hgname] at this
      rw [hm] at this
      exact Bool.false_ne_true this
  rw [hc]

/-- C9 witness: a directory with a removable match, a non-match, a match
whose deletion fails, and near-miss names; only the removable match is
deleted. -/
theorem remove_temp_files_spec_witness :
    (([⟨"tmpa1.mat", true⟩, ⟨"keep.txt", true⟩, ⟨"tmpb2.mat", false⟩,
       ⟨"other.mat", true⟩, ⟨"tmpc3.doc", true⟩] :
        List TmpFile).map TmpFile.name).Nodup ∧
    remove_temp_files
        [⟨"tmpa1.mat", true⟩, ⟨"keep.txt", true⟩, ⟨"tmpb2.mat", false⟩,
         ⟨"other.mat", true⟩, ⟨"tmpc3.doc", true⟩] =
      [⟨"keep.txt", true⟩, ⟨"tmpb2.mat", false⟩, ⟨"other.mat", true⟩,
       ⟨"tmpc3.doc", true⟩] := by
  refine ⟨by decide, ?_⟩
  rw [remove_temp_files_spec
    [⟨"tmpa1.mat", true⟩, ⟨"keep.txt", true⟩, ⟨"tmpb2.mat", false⟩,
     ⟨"other.mat", true⟩, ⟨"tmpc3.doc", true⟩] (by decide)]
  decide

/-! ### Output-count inference (`oct2py/utils.py`, `get_nout`)

`get_nout` inspects the caller's caller: it reads the byte of the frame's
code object at `f_lasti + 3` (the opcode following the call instruction in
the pre-wordcode layout) and, for `UNPACK_SEQUENCE`, the single byte at
`f_lasti + 4`.  The bytecode is a byte string, modelled as a list of
naturals below 256; indexing past the end raises `IndexError`, modelled as
`Option.none`.
-/

def get_nout (bytecode : List Nat) (lasti : Nat) : Option Nat :=
  match bytecode.get? (lasti + 3) with
  | none => none
  | some instruction =>
    if instruction = opUNPACK_SEQUENCE then bytecode.get? (lasti + 4)
    else if instruction = opPOP_TOP then some 0
    else some 1

/-- The full argument of the instruction at byte offset `i`: in the
pre-wordcode layout an argument is the 16-bit little-endian value of the two
bytes following the opcode. -/
def opArg (bytecode : List Nat) (i : Nat) : Option Nat :=
  match bytecode.get? (i + 1), bytecode.get? (i + 2) with
  | some lo, some hi => some (lo + 256 * hi)
  | _, _ => none

/-- C10 counterexample.  When the caller's next instruction is
`UNPACK_SEQUENCE` with argument `300` (an unpacking into 300 targets —
bytes `44, 1` little-endian), `get_nout` returns `44`, not `300`: the
source reads only the low argument byte at `f_lasti + 4`. -/
theorem get_nout_truncates_large_arg :
    ([1, 1, 1, 92, 44, 1].get? 3 = some opUNPACK_SEQUENCE) ∧
    opArg [1, 1, 1, 92, 44, 1] 3 = some 300 ∧
    get_nout [1, 1, 1, 92, 44, 1] 0 = some 44 ∧
    (some 44 : Option Nat) ≠ some 300 := by
  exact ⟨rfl, rfl, rfl, by decide⟩

/-- C10 amended.  `get_nout` is determined solely by the caller's next
instruction: for `UNPACK_SEQUENCE` with argument `n` it returns the low
argument byte, `n % 256` (hence `n` itself exactly when `n < 256`); for
`POP_TOP` it returns `0`; for every other opcode it returns `1`.  The
result is a natural number, so it is never negative. -/
theorem get_nout_spec :
    ∀ (bytecode : List Nat) (lasti : Nat),
      (∀ b ∈ bytecode, b < 256) →
      (∀ n, bytecode.get? (lasti + 3) = some opUNPACK_SEQUENCE →
        opArg bytecode (lasti + 3) = some n →
        get_nout bytecode lasti = some (n % 256)) ∧
      (bytecode.get? (lasti + 3) = some opPOP_TOP →
        get_nout bytecode lasti = some 0) ∧
      (∀ i, bytecode.get? (lasti + 3) = some i →
        i ≠ opUNPACK_SEQUENCE → i ≠ opPOP_TOP →
        get_nout bytecode lasti = some 1) := by
  intro bytecode lasti hbytes
  refine ⟨?_, ?_, ?_⟩
  · intro n hinstr harg
    unfold opArg at harg
    unfold get_nout
    rw [hinstr]
    show (if opUNPACK_SEQUENCE = opUNPACK_SEQUENCE then bytecode.get? (lasti + 4)
      else if opUNPACK_SEQUENCE = opPOP_TOP then some 0 else some 1) =
        some (n % 256)
    rw [if_pos rfl]
    rcases hlo : bytecode.get? (lasti + 3 + 1) with _ | lo
    · rw [hlo] at harg
      exact absurd harg (by simp)
    · rcases hhi : bytecode.get? (lasti + 3 + 2) with _ | hi
      · rw [hlo, hhi] at harg
        exact absurd harg (by simp)
      · rw [hlo, hhi] at harg
        have hn : lo + 256 * hi = n := by
          simpa using harg
        have hlo256 : lo < 256 :=
          hbytes lo (List.get?_mem hlo)
        have : n % 256 = lo := by
          omega
        rw [this]
  · intro hinstr
    unfold get_nout
    rw [hinstr]
    rfl
  · intro i hinstr hu hp
    unfold get_nout
    rw [hinstr]
    simp only [if_neg hu, if_neg hp]

/-- C10 amended, witness: a caller about to `UNPACK_SEQUENCE` 2 values, one
about to `POP_TOP`, and one about to do anything else. -/
theorem get_nout_spec_witness :
    (∀ b ∈ [1, 1, 1, 92, 2, 0], b < 256) ∧
    get_nout [1, 1, 1, 92, 2, 0] 0 = some (2 % 256) ∧
    (∀ b ∈ [1, 1, 1, 1], b < 256) ∧
    get_nout [1, 1, 1, 1] 0 = some 0 ∧
    (∀ b ∈ [1, 1, 1, 83], b < 256) ∧
    get_nout [1, 1, 1, 83] 0 = some 1 := by
  have h1 : ∀ b ∈ [1, 1, 1, 92, 2, 0], b < 256 := by decide
  have h2 : ∀ b ∈ [1, 1, 1, 1], b < 256 := by decide
  have h3 : ∀ b ∈ [1, 1, 1, 83], b < 256 := by decide
  refine ⟨h1, ?_, h2, ?_, h3, ?_⟩
  · exact (get_nout_spec [1, 1, 1, 92, 2, 0] 0 h1).1 2 (by decide) (by decide)
  · exact (get_nout_spec [1, 1, 1, 1] 0 h2).2.1 (by decide)
  · exact (get_nout_spec [1, 1, 1, 83] 0 h3).2.2 83 (by decide) (by decide)
      (by decide)

/-! ### The session state machine -/

/-- Modelled from the spec: the `EngineSession` implementation (the
`Oct2Py` class driving the Octave process) is not among the provided
source files; only its tests are.  Per the spec's state machine, a session
is either `Open` or `Closed`. -/
inductive SessionState where
  | opened : SessionState
  | closed : SessionState
deriving DecidableEq

/-- The protocol operations a session exposes. -/
inductive ProtoOp where
  | put : ProtoOp
  | get : ProtoOp
  | call : ProtoOp
  | evalOp : ProtoOp
deriving DecidableEq

/-- The public error kind raised on a closed session. -/
inductive SessionErr where
  | sessionClosed : SessionErr
deriving DecidableEq

/-- Modelled from the spec: `Closed --open()--> Open; Open --close()-->
Closed; operations only valid in Open; invoking one while Closed raises
SessionClosed ... rather than silently reopening`.  Dispatching an
operation returns the outcome (an error, or acceptance of the request)
together with the state the session is left in. -/
def dispatchOp (st : SessionState) (op : ProtoOp) :
    Except SessionErr ProtoOp × SessionState :=
  match st with
  | .closed => (.error .sessionClosed, .closed)
  | .opened => (.ok op, .opened)

/-- C7.  Every protocol operation invoked on a closed session raises
`SessionClosed` and leaves the session closed — the attempt never reopens
it. -/
theorem closed_session_rejects_ops :
    ∀ op : ProtoOp,
      dispatchOp .closed op = (.error .sessionClosed, .closed) := by
  intro op
  rfl

/-! ### The TypeBridge

Modelled from the spec: the marshalling code itself (the `_oct2py` module's
writer/reader around the MAT container) is not among the provided source
files; only its tests are.  The definitions below follow §4.1 of the spec:
its fixed element-kind enumeration, the rejection of extended-precision and
object kinds at encode time, the encode rules 1-9 in priority order, and the
decode rules (struct recovery, cell recursion, 1×n squeeze).
-/

/-- The element kinds a host value can carry: the supported fixed-width
kinds plus the explicitly rejected ones (extended-precision float
(`float96`/`'g'`), extended-precision complex (`complex192`/`'G'`), and the
opaque object kind (`'o'`/`'V'`)). -/
inductive DKind where
  | i8 | i16 | i32 | i64 | u8 | u16 | u32 | u64
  | f32 | f64 | c64 | c128
  | floatExt | complexExt | objKind
deriving DecidableEq

/-- Membership in the supported enumerated set. -/
def suppK : DKind → Bool
  | .floatExt => false
  | .complexExt => false
  | .objKind => false
  | _ => true

/-- The kind an encoded value is stored under: `float32` widens to the
engine's `double` and `complex64` to `complex128` (the sanctioned
narrowings); every other supported kind maps to itself. -/
def kmap : DKind → DKind
  | .f32 => .f64
  | .c64 => .c128
  | k => k

/-- A numeric payload component: `NaN` or a rational (the values the claims
exercise are exact; `NaN` is the image of `None`). -/
inductive PReal where
  | nan : PReal
  | q (x : Rat) : PReal
deriving DecidableEq

/-- A complex payload: real and imaginary components. -/
abbrev CPair := PReal × PReal

/-- `MarshalError`, naming the offending element kind where there is one. -/
inductive MErr where
  | unsupportedKind (k : DKind) : MErr
  | raggedStrings : MErr
  | mixedTextNesting : MErr
  | emptyValue : MErr
deriving DecidableEq

mutual
/-- A host-language value: `None`, booleans, untyped integers, typed
numeric scalars, text, sequences (lists/tuples/sets in iteration order),
associative containers (dicts/Structs, in key order), and N-dimensional
numeric arrays (kind, shape, row-major buffer). -/
inductive HostVal where
  | pynone : HostVal
  | pybool (b : Bool) : HostVal
  | pyint (n : Int) : HostVal
  | scalar (k : DKind) (re im : PReal) : HostVal
  | text (s : String) : HostVal
  | seq (xs : HostList) : HostVal
  | assoc (fs : HostFields) : HostVal
  | ndarr (k : DKind) (shape : List Nat) (buf : List CPair) : HostVal

inductive HostList where
  | hnil : HostList
  | hcons (x : HostVal) (xs : HostList) : HostList

inductive HostFields where
  | qnil : HostFields
  | qcons (k : String) (v : HostVal) (fs : HostFields) : HostFields
end

mutual
/-- A container record, as the engine-side value model sees it: a numeric
matrix (kind, shape, buffer, plus the `logical` class tag that marks a
value that originated from a boolean), character data, a cell array, or a
struct with ordered named fields. -/
inductive CRec where
  | mat (k : DKind) (shape : List Nat) (buf : List CPair) (logical : Bool) : CRec
  | chars (s : String) : CRec
  | cell (xs : CList) : CRec
  | structR (fs : CFields) : CRec

inductive CList where
  | cnil : CList
  | ccons (x : CRec) (xs : CList) : CList

inductive CFields where
  | rnil : CFields
  | rcons (k : String) (v : CRec) (fs : CFields) : CFields
end

/-- The kind under which a host value can join a uniform numeric sequence:
untyped integers widen to the largest signed width (`i64`); typed scalars
keep their (supported) kind. -/
def kindOf1 : HostVal → Option DKind
  | .pyint _ => some .i64
  | .scalar k _ _ => if suppK k then some k else none
  | _ => none

/-- The numeric payload of a scalar element. -/
def spay : HostVal → Option CPair
  | .pyint n => some (.q n, .q 0)
  | .scalar _ re im => some (re, im)
  | _ => none

/-- The payloads of a list all of whose elements are numeric scalars. -/
def scalarPayloads : HostList → Option (List CPair)
  | .hnil => some []
  | .hcons x xs =>
    match spay x, scalarPayloads xs with
    | some p, some ps => some (p :: ps)
    | _, _ => none

/-- Every remaining element joins kind `k`. -/
def uniformRest (k : DKind) : HostList → Bool
  | .hnil => true
  | .hcons x xs => decide (kindOf1 x = some k) && uniformRest k xs

/-- The single kind of a uniform numeric sequence, if there is one. -/
def uniformKind : HostList → Option DKind
  | .hnil => none
  | .hcons x xs =>
    match kindOf1 x with
    | some k => if uniformRest k xs then some k else none
    | none => none

/-- A flat list of texts, if that is what the elements are. -/
def asTexts : HostList → Option (List String)
  | .hnil => some []
  | .hcons (.text s) xs =>
    match asTexts xs with
    | some ss => some (s :: ss)
    | none => none
  | .hcons _ _ => none

/-- A nested list of strings (each element a sequence of texts), if that is
what the elements are. -/
def asTextRows : HostList → Option (List (List String))
  | .hnil => some []
  | .hcons (.seq ys) xs =>
    match asTexts ys, asTextRows xs with
    | some row, some rows => some (row :: rows)
    | _, _ => none
  | .hcons _ _ => none

/-- A nested list of strings is rectangular: every row holds the same
number of strings and every string has the same length (otherwise the
container format cannot hold it and encoding must fail). -/
def sameLens (rows : List (List String)) : Bool :=
  match rows with
  | [] => true
  | r :: rs =>
    rs.all (fun r2 => r2.length == r.length) &&
    (match (r :: rs).flatten with
     | [] => true
     | s :: ss => ss.all (fun t => t.length == s.length))

/-- Any element is a text. -/
def hasText : HostList → Bool
  | .hnil => false
  | .hcons (.text _) _ => true
  | .hcons _ xs => hasText xs

/-- Any element is a nested sequence. -/
def hasSeqElem : HostList → Bool
  | .hnil => false
  | .hcons (.seq _) _ => true
  | .hcons _ xs => hasSeqElem xs

/-- A flat list of strings as a cell array of character records. -/
def textsToCList : List String → CList
  | [] => .cnil
  | s :: ss => .ccons (.chars s) (textsToCList ss)

/-- A rectangular nested list of strings as a cell of cells of character
records. -/
def rowsToCList : List (List String) → CList
  | [] => .cnil
  | r :: rs => .ccons (.cell (textsToCList r)) (rowsToCList rs)

mutual
/-- Modelled from the spec (§4.1, rules 1-9 in priority order):
`None` becomes a float64 NaN scalar; a boolean becomes a single-byte signed
integer scalar carrying the explicit `logical` ("was boolean") tag; untyped
integers widen to `i64`, floats to `f64`; typed scalars of supported kinds
map 1:1 under the `f32 → f64` and `c64 → c128` widenings; text maps to
character data; associative containers map to structs preserving key order;
uniform numeric sequences map to a 1×N matrix; other sequences map to cell
arrays, with flat string lists becoming cells of character data,
rectangular nested string lists cells of such cells, ragged nested string
lists a `MarshalError`, and mixed string/sequence nesting a `MarshalError`;
a 1-dimensional array acquires the explicit leading unit dimension; empty
values and the excluded kinds are rejected with a `MarshalError` naming the
kind.  An error is returned in place of any record, so no partial output
ever escapes. -/
def encode : HostVal → Except MErr CRec
  | .pynone => .ok (.mat .f64 [1, 1] [(.nan, .q 0)] false)
  | .pybool b => .ok (.mat .i8 [1, 1] [(.q (if b then 1 else 0), .q 0)] true)
  | .pyint n => .ok (.mat .i64 [1, 1] [(.q n, .q 0)] false)
  | .scalar k re im =>
    if suppK k then .ok (.mat (kmap k) [1, 1] [(re, im)] false)
    else .error (.unsupportedKind k)
  | .text s => .ok (.chars s)
  | .seq .hnil => .error .emptyValue
  | .seq (.hcons x xs) =>
    match uniformKind (.hcons x xs), scalarPayloads (.hcons x xs) with
    | some k, some ps => .ok (.mat (kmap k) [1, ps.length] ps false)
    | _, _ =>
      match asTexts (.hcons x xs) with
      | some ss => .ok (.cell (textsToCList ss))
      | none =>
        match asTextRows (.hcons x xs) with
        | some rows =>
          if sameLens rows then .ok (.cell (rowsToCList rows))
          else .error .raggedStrings
        | none =>
          if hasText (.hcons x xs) && hasSeqElem (.hcons x xs) then
            .error .mixedTextNesting
          else
            match encodeList (.hcons x xs) with
            | .ok rs => .ok (.cell rs)
            | .error e => .error e
  | .assoc fs =>
    match encodeFields fs with
    | .ok rs => .ok (.structR rs)
    | .error e => .error e
  | .ndarr k sh buf =>
    if suppK k then
      if sh.contains 0 || buf.isEmpty then .error .emptyValue
      else
        match sh with
        | [n] => .ok (.mat (kmap k) [1, n] buf false)
        | _ => .ok (.mat (kmap k) sh buf false)
    else .error (.unsupportedKind k)

def encodeList : HostList → Except MErr CList
  | .hnil => .ok .cnil
  | .hcons x xs =>
    match encode x, encodeList xs with
    | .ok r, .ok rs => .ok (.ccons r rs)
    | .error e, _ => .error e
    | _, .error e => .error e

def encodeFields : HostFields → Except MErr CFields
  | .qnil => .ok .rnil
  | .qcons k v fs =>
    match encode v, encodeFields fs with
    | .ok r, .ok rs => .ok (.rcons k r rs)
    | .error e, _ => .error e
    | _, .error e => .error e
end

mutual
/-- Modelled from the spec: decoding recovers host values from container
records.  A 1×1 matrix is a scalar — a boolean when it carries the
`logical` tag; a 1×n matrix is squeezed back to a 1-dimensional array;
character data becomes text; a cell array becomes a sequence of
independently decoded elements; a struct becomes an associative value
(host-side a `Struct`) preserving field order. -/
def decode : CRec → HostVal
  | .mat k sh buf log =>
    match sh, buf with
    | [1, 1], [p] =>
      if log then .pybool (decide (p.1 ≠ .q 0)) else .scalar k p.1 p.2
    | _, _ =>
      match sh with
      | [1, n] => .ndarr k [n] buf
      | _ => .ndarr k sh buf
  | .chars s => .text s
  | .cell xs => .seq (decodeList xs)
  | .structR fs => .assoc (decodeFields fs)

def decodeList : CList → HostList
  | .cnil => .hnil
  | .ccons x xs => .hcons (decode x) (decodeList xs)

def decodeFields : CFields → HostFields
  | .rnil => .qnil
  | .rcons k v fs => .qcons k (decode v) (decodeFields fs)
end

/-- Shapes up to the sanctioned 1×n squeeze: a two-dimensional row shape
`[1, n]` is identified with the 1-dimensional `[n]`; nothing else is
squeezed (the tests keep `n×1` arrays two-dimensional). -/
def normShape : List Nat → List Nat
  | [1, n] => [n]
  | sh => sh

/-- Numeric-component equality, treating `NaN` as round-tripping to itself
(the relaxation the repository's tests apply when comparing a round trip,
`RoundtripTest.nested_equal`). -/
def prEq : PReal → PReal → Bool
  | .nan, .nan => true
  | .q a, .q b => decide (a = b)
  | _, _ => false

def pairEq (p r : CPair) : Bool := prEq p.1 r.1 && prEq p.2 r.2

def pairListEq : List CPair → List CPair → Bool
  | [], [] => true
  | p :: ps, r :: rs => pairEq p r && pairListEq ps rs
  | _, _ => false

/-- The numeric view of a host value: its (normalised) shape and payload
buffer.  `None`, booleans, integers and scalars are single-payload values;
a sequence of numeric scalars is a 1-dimensional array. -/
def numView : HostVal → Option (List Nat × List CPair)
  | .pynone => some ([1], [(.nan, .q 0)])
  | .pybool b => some ([1], [(.q (if b then 1 else 0), .q 0)])
  | .pyint n => some ([1], [(.q n, .q 0)])
  | .scalar _ re im => some ([1], [(re, im)])
  | .ndarr _ sh buf => some (normShape sh, buf)
  | .seq xs =>
    match scalarPayloads xs with
    | some [] => none
    | some ps => some ([ps.length], ps)
    | none => none
  | _ => none

def nvEq (a b : List Nat × List CPair) : Bool :=
  decide (a.1 = b.1) && pairListEq a.2 b.2

mutual
/-- Value equality modulo the sanctioned narrowings of the round-trip law:
numeric-view values (scalars of any supported kind, booleans, `None`/NaN,
numeric arrays and numeric sequences) are compared by normalised shape and
payload — which absorbs `bool → int8-tagged-boolean`, `float32 → float64`,
`complex64 → complex128`, the `1×n` squeeze, and `None → NaN`; texts
compare by content; other sequences pointwise; associative values by key
and value pointwise in order. -/
def veq : HostVal → HostVal → Bool
  | .text s, .text t => s == t
  | .seq xs, .seq ys => veqList xs ys
  | .assoc fs, .assoc gs => veqFields fs gs
  | v, w =>
    match numView v, numView w with
    | some a, some b => nvEq a b
    | _, _ => false

def veqList : HostList → HostList → Bool
  | .hnil, .hnil => true
  | .hcons x xs, .hcons y ys => veq x y && veqList xs ys
  | _, _ => false

def veqFields : HostFields → HostFields → Bool
  | .qnil, .qnil => true
  | .qcons k v fs, .qcons k2 w gs => k == k2 && veq v w && veqFields fs gs
  | _, _ => false
end

/-! #### Round-trip lemmas -/

theorem prEq_refl : ∀ a : PReal, prEq a a = true
  | .nan => rfl
  | .q _ => by simp [prEq]

theorem pairEq_refl (p : CPair) : pairEq p p = true := by
  simp [pairEq, prEq_refl]

theorem pairListEq_refl : ∀ ps : List CPair, pairListEq ps ps = true
  | [] => rfl
  | p :: ps => by simp [pairListEq, pairEq_refl, pairListEq_refl ps]

theorem nvEq_refl (a : List Nat × List CPair) : nvEq a a = true := by
  simp [nvEq, pairListEq_refl]

theorem normShape_single (n : Nat) : normShape [n] = [n] := by
  unfold normShape
  split
  · next h => simp at h
  · rfl

/-- Host values whose `veq` comparison is structural rather than by numeric
view. -/
def isStructural : HostVal → Bool
  | .text _ => true
  | .seq _ => true
  | .assoc _ => true
  | _ => false

/-- Decoding an untagged matrix yields a numeric-view value (a scalar or an
array, never text/sequence/struct) whose view is the normalised shape with
the original buffer. -/
theorem decode_mat_view (k : DKind) (sh : List Nat) (buf : List CPair) :
    numView (decode (.mat k sh buf false)) = some (normShape sh, buf) ∧
    isStructural (decode (.mat k sh buf false)) = false := by
  rcases sh with _ | ⟨a, _ | ⟨b, t⟩⟩
  · constructor <;> simp [decode, numView, isStructural, normShape]
  · constructor <;> simp [decode, numView, isStructural, normShape_single]
  · rcases a with _ | ⟨_ | a⟩ <;> rcases b with _ | ⟨_ | b⟩ <;>
      rcases t with _ | ⟨c, t⟩ <;> rcases buf with _ | ⟨p, _ | ⟨q, ps⟩⟩ <;>
      constructor <;> simp [decode, numView, isStructural, normShape]

/-- `veq` between two numeric-view values (the left one not structural) is
the comparison of their views. -/
theorem veq_eq_nvEq (v w : HostVal) (a b : List Nat × List CPair)
    (hv : numView v = some a) (hw : numView w = some b)
    (hs : isStructural v = false) : veq v w = nvEq a b := by
  cases v <;> cases w <;> simp_all [veq, numView, isStructural]

/-- `veq` between a decoded untagged matrix and any numeric-view value. -/
theorem veq_decode_mat (k : DKind) (sh : List Nat) (buf : List CPair)
    (w : HostVal) (b : List Nat × List CPair) (hw : numView w = some b) :
    veq (decode (.mat k sh buf false)) w = nvEq (normShape sh, buf) b := by
  obtain ⟨hv, hs⟩ := decode_mat_view k sh buf
  exact veq_eq_nvEq _ w _ b hv hw hs

theorem scalarPayloads_cons (x : HostVal) (xs : HostList) (ps : List CPair)
    (h : scalarPayloads (.hcons x xs) = some ps) :
    ∃ p ps2, ps = p :: ps2 ∧ spay x = some p ∧ scalarPayloads xs = some ps2 := by
  cases hx : spay x <;> cases hxs : scalarPayloads xs <;>
    simp_all [scalarPayloads]

theorem numView_seq_of_payloads (xs : HostList) (p : CPair) (ps : List CPair)
    (h : scalarPayloads xs = some (p :: ps)) :
    numView (.seq xs) = some ([(p :: ps).length], p :: ps) := by
  simp [numView, h]

/-- A flat string list round-trips through its cell of character records. -/
theorem veqList_texts :
    ∀ (xs : HostList) (ss : List String), asTexts xs = some ss →
      veqList (decodeList (textsToCList ss)) xs = true
  | .hnil, ss, h => by
    simp only [asTexts, Option.some.injEq] at h
    subst h
    rfl
  | .hcons (.text s) xs, ss, h => by
    rcases hrest : asTexts xs with _ | ss2
    · rw [asTexts, hrest] at h
      exact absurd h (by simp)
    · rw [asTexts, hrest] at h
      simp only [Option.some.injEq] at h
      subst h
      simp only [textsToCList, decodeList, decode, veqList]
      rw [veqList_texts xs ss2 hrest]
      simp [veq]
  | .hcons (.pynone) _, ss, h => by simp [asTexts] at h
  | .hcons (.pybool _) _, ss, h => by simp [asTexts] at h
  | .hcons (.pyint _) _, ss, h => by simp [asTexts] at h
  | .hcons (.scalar _ _ _) _, ss, h => by simp [asTexts] at h
  | .hcons (.seq _) _, ss, h => by simp [asTexts] at h
  | .hcons (.assoc _) _, ss, h => by simp [asTexts] at h
  | .hcons (.ndarr _ _ _) _, ss, h => by simp [asTexts] at h

/-- A rectangular nested string list round-trips through its cell of cells. -/
theorem veqList_rows :
    ∀ (xs : HostList) (rows : List (List String)), asTextRows xs = some rows →
      veqList (decodeList (rowsToCList rows)) xs = true
  | .hnil, rows, h => by
    simp only [asTextRows, Option.some.injEq] at h
    subst h
    rfl
  | .hcons (.seq ys) xs, rows, h => by
    rcases hrow : asTexts ys with _ | row <;>
      rcases hrest : asTextRows xs with _ | rows2 <;>
      rw [asTextRows, hrow, hrest] at h
    · exact absurd h (by simp)
    · exact absurd h (by simp)
    · exact absurd h (by simp)
    · simp only [Option.some.injEq] at h
      subst h
      simp only [rowsToCList, decodeList, decode, veqList]
      rw [veqList_rows xs rows2 hrest]
      simp only [veq, Bool.and_true]
      exact veqList_texts ys row hrow
  | .hcons (.pynone) _, rows, h => by simp [asTextRows] at h
  | .hcons (.pybool _) _, rows, h => by simp [asTextRows] at h
  | .hcons (.pyint _) _, rows, h => by simp [asTextRows] at h
  | .hcons (.scalar _ _ _) _, rows, h => by simp [asTextRows] at h
  | .hcons (.text _) _, rows, h => by simp [asTextRows] at h
  | .hcons (.assoc _) _, rows, h => by simp [asTextRows] at h
  | .hcons (.ndarr _ _ _) _, rows, h => by simp [asTextRows] at h

mutual
/-- Whenever `encode` succeeds, decoding the record is value-equal (modulo
the sanctioned narrowings) to the original. -/
theorem rt_val : ∀ (v : HostVal) (r : CRec), encode v = .ok r →
    veq (decode r) v = true
  | .pynone, r, h => by
    simp only [encode, Except.ok.injEq] at h
    subst h
    rfl
  | .pybool b, r, h => by
    simp only [encode, Except.ok.injEq] at h
    subst h
    cases b <;> rfl
  | .pyint n, r, h => by
    simp only [encode, Except.ok.injEq] at h
    subst h
    rw [veq_decode_mat .i64 [1, 1] [(.q n, .q 0)] (.pyint n)
      ([1], [(.q n, .q 0)]) rfl]
    exact nvEq_refl _
  | .scalar k re im, r, h => by
    simp only [encode] at h
    split at h
    · simp only [Except.ok.injEq] at h
      subst h
      rw [veq_decode_mat (kmap k) [1, 1] [(re, im)] (.scalar k re im)
        ([1], [(re, im)]) rfl]
      exact nvEq_refl _
    · exact absurd h (by simp)
  | .text s, r, h => by
    simp only [encode, Except.ok.injEq] at h
    subst h
    simp [decode, veq]
  | .seq .hnil, r, h => by
    simp [encode] at h
  | .seq (.hcons x xs), r, h => by
    simp only [encode] at h
    split at h
    · next k ps huk hsp =>
      simp only [Except.ok.injEq] at h
      subst h
      obtain ⟨p, ps2, rfl, hpx, hpxs⟩ := scalarPayloads_cons x xs ps hsp
      rw [veq_decode_mat (kmap k) [1, (p :: ps2).length] (p :: ps2)
        (.seq (.hcons x xs)) ([(p :: ps2).length], p :: ps2)
        (numView_seq_of_payloads _ p ps2 hsp)]
      exact nvEq_refl _
    · split at h
      · next ss hts =>
        simp only [Except.ok.injEq] at h
        subst h
        simp only [decode, veq]
        exact veqList_texts _ ss hts
      · split at h
        · next rows hrows =>
          split at h
          · simp only [Except.ok.injEq] at h
            subst h
            simp only [decode, veq]
            exact veqList_rows _ rows hrows
          · exact absurd h (by simp)
        · split at h
          · exact absurd h (by simp)
          · split at h
            · next rs hrs =>
              simp only [Except.ok.injEq] at h
              subst h
              simp only [decode, veq]
              exact rt_list _ rs hrs
            · exact absurd h (by simp)
  | .assoc fs, r, h => by
    simp only [encode] at h
    split at h
    · next gs hgs =>
      simp only [Except.ok.injEq] at h
      subst h
      simp only [decode, veq]
      exact rt_fields fs gs hgs
    · exact absurd h (by simp)
  | .ndarr k sh buf, r, h => by
    simp only [encode] at h
    split at h
    · split at h
      · exact absurd h (by simp)
      · rcases sh with _ | ⟨a, _ | ⟨b, t⟩⟩
        · simp only [Except.ok.injEq] at h
          subst h
          rw [veq_decode_mat (kmap k) [] buf (.ndarr k [] buf)
            (normShape [], buf) rfl]
          exact nvEq_refl _
        · simp only [Except.ok.injEq] at h
          subst h
          rw [veq_decode_mat (kmap k) [1, a] buf (.ndarr k [a] buf)
            (normShape [a], buf) rfl]
          rw [normShape_single]
          exact nvEq_refl _
        · simp only [Except.ok.injEq] at h
          subst h
          rw [veq_decode_mat (kmap k) (a :: b :: t) buf
            (.ndarr k (a :: b :: t) buf) (normShape (a :: b :: t), buf) rfl]
          exact nvEq_refl _
    · exact absurd h (by simp)

theorem rt_list : ∀ (xs : HostList) (rs : CList), encodeList xs = .ok rs →
    veqList (decodeList rs) xs = true
  | .hnil, rs, h => by
    simp only [encodeList, Except.ok.injEq] at h
    subst h
    rfl
  | .hcons x xs, rs, h => by
    simp only [encodeList] at h
    split at h
    · next r rs2 hr hrs =>
      simp only [Except.ok.injEq] at h
      subst h
      simp only [decodeList, veqList]
      rw [rt_val x r hr, rt_list xs rs2 hrs]
      rfl
    · exact absurd h (by simp)
    · exact absurd h (by simp)

theorem rt_fields : ∀ (fs : HostFields) (rs : CFields),
    encodeFields fs = .ok rs → veqFields (decodeFields rs) fs = true
  | .qnil, rs, h => by
    simp only [encodeFields, Except.ok.injEq] at h
    subst h
    rfl
  | .qcons k v fs, rs, h => by
    simp only [encodeFields] at h
    split at h
    · next r rs2 hr hrs =>
      simp only [Except.ok.injEq] at h
      subst h
      simp only [decodeFields, veqFields]
      rw [rt_val v r hr, rt_fields fs rs2 hrs]
      simp
    · exact absurd h (by simp)
    · exact absurd h (by simp)
end

/-- C1.  The round-trip law: for every supported value (scalar, array,
struct or cell) — that is, every value `encode` accepts — decoding the
encoding is value-equal to the original, where `veq` sanctions exactly the
explicit narrowings: boolean to int8-tagged boolean, `float32` to
`float64`, `complex64` to `complex128`, and the `1×n` squeeze back to one
dimension. -/
theorem roundtrip_law :
    ∀ (v : HostVal) (r : CRec), encode v = .ok r → veq (decode r) v = true :=
  fun v r h => rt_val v r h

/-- C1 witness: the list `[1, 2]` encodes to a 1×2 `int64` matrix and
decodes to a value-equal 1-dimensional array. -/
theorem roundtrip_law_witness :
    encode (.seq (.hcons (.pyint 1) (.hcons (.pyint 2) .hnil))) =
      .ok (.mat .i64 [1, 2] [(.q 1, .q 0), (.q 2, .q 0)] false) ∧
    veq (decode (.mat .i64 [1, 2] [(.q 1, .q 0), (.q 2, .q 0)] false))
      (.seq (.hcons (.pyint 1) (.hcons (.pyint 2) .hnil))) = true :=
  ⟨rfl, roundtrip_law (.seq (.hcons (.pyint 1) (.hcons (.pyint 2) .hnil)))
    (.mat .i64 [1, 2] [(.q 1, .q 0), (.q 2, .q 0)] false) rfl⟩

/-- C4.  A host boolean encodes to a single-byte integer record carrying
the explicit `logical` ("was boolean") tag; decoding that record yields a
boolean-shaped value, while the same bytes without the tag decode to a
plain int8 scalar — a distinct value, so the tag makes the round-tripped
boolean distinguishable from a generic single-byte integer. -/
theorem bool_roundtrip_tagged :
    ∀ b : Bool,
      encode (.pybool b) =
        .ok (.mat .i8 [1, 1] [(.q (if b then 1 else 0), .q 0)] true) ∧
      decode (.mat .i8 [1, 1] [(.q (if b then 1 else 0), .q 0)] true) =
        .pybool b ∧
      decode (.mat .i8 [1, 1] [(.q (if b then 1 else 0), .q 0)] false) =
        .scalar .i8 (.q (if b then 1 else 0)) (.q 0) ∧
      (.pybool b : HostVal) ≠
        .scalar .i8 (.q (if b then 1 else 0)) (.q 0) := by
  intro b
  cases b
  · exact ⟨rfl, rfl, rfl, fun hc => HostVal.noConfusion hc⟩
  · exact ⟨rfl, rfl, rfl, fun hc => HostVal.noConfusion hc⟩

/-- C5.  Encoding an extended-precision float, an extended-precision
complex, or an opaque object kind — as a scalar or as an array of any shape
— always raises `MarshalError` naming the kind, and encoding a ragged
nested list of strings always raises `MarshalError`; `encode` returns the
error in place of any record, so no partial output is produced. -/
theorem rejected_kinds_error :
    (∀ re im, encode (.scalar .floatExt re im) =
      .error (.unsupportedKind .floatExt)) ∧
    (∀ re im, encode (.scalar .complexExt re im) =
      .error (.unsupportedKind .complexExt)) ∧
    (∀ re im, encode (.scalar .objKind re im) =
      .error (.unsupportedKind .objKind)) ∧
    (∀ sh buf, encode (.ndarr .floatExt sh buf) =
      .error (.unsupportedKind .floatExt)) ∧
    (∀ sh buf, encode (.ndarr .complexExt sh buf) =
      .error (.unsupportedKind .complexExt)) ∧
    (∀ sh buf, encode (.ndarr .objKind sh buf) =
      .error (.unsupportedKind .objKind)) ∧
    (∀ x xs rows, asTextRows (.hcons x xs) = some rows →
      sameLens rows = false →
      encode (.seq (.hcons x xs)) = .error .raggedStrings) := by
  refine ⟨fun _ _ => rfl, fun _ _ => rfl, fun _ _ => rfl,
    fun _ _ => rfl, fun _ _ => rfl, fun _ _ => rfl, ?_⟩
  intro x xs rows hrows hlen
  cases x with
  | seq ys =>
    have huk : uniformKind (.hcons (.seq ys) xs) = none := by
      simp [uniformKind, kindOf1]
    have hsp : scalarPayloads (.hcons (.seq ys) xs) = none := by
      simp [scalarPayloads, spay]
    have hat : asTexts (.hcons (.seq ys) xs) = none := by
      simp [asTexts]
    simp only [encode, huk, hsp, hat, hrows, hlen, Bool.false_eq_true,
      if_false]
  | pynone => simp [asTextRows] at hrows
  | pybool b => simp [asTextRows] at hrows
  | pyint n => simp [asTextRows] at hrows
  | scalar k re im => simp [asTextRows] at hrows
  | text s => simp [asTextRows] at hrows
  | assoc fs => simp [asTextRows] at hrows
  | ndarr k sh buf => simp [asTextRows] at hrows

/-- C5 witness: a `float96`-kind scalar, an object-kind array, and the
ragged nested string list `[['a'], ['b', 'c']]` are all rejected. -/
theorem rejected_kinds_error_witness :
    encode (.scalar .floatExt (.q 1) (.q 2)) =
      .error (.unsupportedKind .floatExt) ∧
    encode (.ndarr .objKind [2, 2] [(.q 1, .q 0)]) =
      .error (.unsupportedKind .objKind) ∧
    asTextRows (.hcons (.seq (.hcons (.text "a") .hnil))
        (.hcons (.seq (.hcons (.text "b") (.hcons (.text "c") .hnil)))
          .hnil)) = some [["a"], ["b", "c"]] ∧
    sameLens [["a"], ["b", "c"]] = false ∧
    encode (.seq (.hcons (.seq (.hcons (.text "a") .hnil))
        (.hcons (.seq (.hcons (.text "b") (.hcons (.text "c") .hnil)))
          .hnil))) = .error .raggedStrings :=
  ⟨rejected_kinds_error.1 (.q 1) (.q 2),
   rejected_kinds_error.2.2.2.2.2.1 [2, 2] [(.q 1, .q 0)],
   rfl, rfl,
   rejected_kinds_error.2.2.2.2.2.2 (.seq (.hcons (.text "a") .hnil))
     (.hcons (.seq (.hcons (.text "b") (.hcons (.text "c") .hnil))) .hnil)
     [["a"], ["b", "c"]] rfl rfl⟩

end Oct2py
